import Mathlib

/-!
Verification of the bookmatch fetch / dedup / upsert core.

Shallow embedding of the Kakao book collector (`kakao_books.py`) and the
persistence layer (`app/crud.py`, `app/main.py`, `app/models.py`).

Python strings are modelled as `List Char` (`Str`); Python `dict` records
from the API are modelled as a structure of optional fields (`RawRecord`,
absence of a key and an explicit `None` value are merged into `none`, which
is behaviourally equivalent everywhere in the embedded code).  Network
traffic is modelled by an oracle mapping request indices to responses, and
clock/sleep effects are recorded in an explicit trace.
-/

set_option autoImplicit false

namespace BookMatch

/-- Python strings, modelled as lists of characters. -/
abbrev Str := List Char

/-- Coerce a Lean string literal to the `Str` model. -/
def str (s : String) : Str := s.data

/-- Models the Python regex class `\s` (whitespace) as used by `str.strip`,
`str.split()` and the `re.split` pattern in `_normalize_isbn`. -/
def isSpace (c : Char) : Bool := c.isWhitespace

/-- The character class `[\s,;|/]` of `_normalize_isbn`'s `re.split` pattern:
whitespace or one of the delimiters `,` `;` `|` `/`. -/
def isDelim (c : Char) : Bool :=
  isSpace c || c = ',' || c = ';' || c = '|' || c = '/'

/-- Python `str.strip()`: drop leading and trailing whitespace. -/
def pyStrip (s : Str) : Str :=
  (s.dropWhile isSpace).rdropWhile isSpace

/-- Helper for `tokensBy`: `cur` holds the reversed current run of
non-delimiter characters. -/
def tokAux (p : Char → Bool) : Str → Str → List Str
  | cur, [] => if cur = [] then [] else [cur.reverse]
  | cur, c :: cs =>
    if p c then
      if cur = [] then tokAux p [] cs else cur.reverse :: tokAux p [] cs
    else tokAux p (c :: cur) cs

/-- Split a string at characters satisfying `p` and discard empty parts:
the list of maximal runs of characters not satisfying `p`.  With
`p = isDelim` this models `re.split(r"[\s,;|/]+", s)` followed by the
comprehension `[p for p in parts if p]`; with `p = isSpace` it models
Python's `str.split()` with no argument. -/
def tokensBy (p : Char → Bool) (s : Str) : List Str := tokAux p [] s

/-- `kakao_books._normalize_isbn`: on empty input return `None`; otherwise
strip, split on whitespace/`,`/`;`/`|`/`/`, discard empty parts, and return
the first part (or `None` when no part remains). -/
def _normalize_isbn (isbn_raw : Str) : Option Str :=
  if isbn_raw = [] then none
  else (tokensBy isDelim (pyStrip isbn_raw)).head?

/-- The `authors` (and `translators`) field of a raw API record: either a
list of strings or a single string.  A Python `None` (or absent key) is
modelled by wrapping in `Option` at the use sites. -/
inductive AuthorsField where
  | strs (xs : List Str)
  | str (s : Str)
  deriving DecidableEq, Repr

/-- `kakao_books._authors_to_string` applied to `doc.get("authors", [])`:
a list is comma-joined, an absent/None value gives the empty string, a
plain string is kept as is. -/
def _authors_to_string : Option AuthorsField → Str
  | some (.strs xs) => (", ".intercalate (xs.map fun x => String.mk x)).data
  | some (.str s) => s
  | none => []

/-- A raw record (`Dict[str, Any]`) returned by the Kakao book-search API,
restricted to the fields the embedded code reads.  `none` models an absent
key (or an explicit `None` value, which the code treats identically). -/
structure RawRecord where
  title : Option Str := none
  contents : Option Str := none
  url : Option Str := none
  isbn : Option Str := none
  datetime : Option Str := none
  authors : Option AuthorsField := none
  publisher : Option Str := none
  translators : Option AuthorsField := none
  price : Option Int := none
  sale_price : Option Int := none
  thumbnail : Option Str := none
  status : Option Str := none
  deriving DecidableEq, Repr

/-- `kakao_books._fallback_key`: `title||publisher||authors` (each
stripped), or `unknown` when all three are empty. -/
def _fallback_key (doc : RawRecord) : Str :=
  let title := pyStrip (doc.title.getD [])
  let publisher := pyStrip (doc.publisher.getD [])
  let authors_str := pyStrip (_authors_to_string doc.authors)
  if title = [] ∧ publisher = [] ∧ authors_str = [] then str "unknown"
  else title ++ str "||" ++ publisher ++ str "||" ++ authors_str

/-- The deduplication key computed inside `dedup_documents`:
`isbn:<normalized>` when a normalized isbn exists, else
`fallback:<fallback key>`. -/
def recordKey (doc : RawRecord) : Str :=
  match _normalize_isbn (pyStrip (doc.isbn.getD [])) with
  | some isbn_key => str "isbn:" ++ isbn_key
  | none => str "fallback:" ++ _fallback_key doc

/-- The loop of `kakao_books.dedup_documents` over the insertion-ordered
dict `seen`: a record whose key is already present is skipped
(`continue`), so the dict keeps the first record per key, in
first-occurrence order. -/
def dedupGo : List RawRecord → List Str → List RawRecord
  | [], _ => []
  | doc :: docs, seen =>
    if recordKey doc ∈ seen then dedupGo docs seen
    else doc :: dedupGo docs (recordKey doc :: seen)

/-- `kakao_books.dedup_documents`. -/
def dedup_documents (docs : List RawRecord) : List RawRecord :=
  dedupGo docs []

/-! ## Persistence layer: `app/models.py`, `app/crud.py`, `app/main.py` -/

/-- Consume exactly `n` decimal digits, returning the rest of the string. -/
def takeDigits : Nat → Str → Option Str
  | 0, s => some s
  | _ + 1, [] => none
  | n + 1, c :: s => if c.isDigit then takeDigits n s else none

/-- Consume the literal character `c`. -/
def litc (c : Char) : Str → Option Str
  | [] => none
  | d :: s => if d = c then some s else none

/-- Shape check for the time-of-day part of `datetime.fromisoformat` input
(after the date and one separator character): `HH:MM:SS`, optional `.fff` or
`.ffffff` fraction, optional `+HH:MM`/`-HH:MM` offset.  Numeric range checks
of the real parser are not modelled — only the digit shape. -/
def isoTimeTail (s : Str) : Bool :=
  (do
    let s ← takeDigits 2 s
    let s ← litc ':' s
    let s ← takeDigits 2 s
    let s ← litc ':' s
    let s ← takeDigits 2 s
    let s ←
      match s with
      | '.' :: rest => (takeDigits 6 rest).orElse fun _ => takeDigits 3 rest
      | _ => some s
    let s ←
      match s with
      | '+' :: rest | '-' :: rest => do
        let r ← takeDigits 2 rest
        let r ← litc ':' r
        takeDigits 2 r
      | [] => some ([] : Str)
      | _ => none
    if s = [] then some () else none).isSome

/-- Shape check for `datetime.fromisoformat`: `YYYY-MM-DD`, optionally
followed by a single separator character and `isoTimeTail`. -/
def isoDatetimeOk (s : Str) : Bool :=
  match
    (do
      let s ← takeDigits 4 s
      let s ← litc '-' s
      let s ← takeDigits 2 s
      let s ← litc '-' s
      takeDigits 2 s)
  with
  | none => false
  | some [] => true
  | some (_sep :: rest) => isoTimeTail rest

/-- Python `datetime_str.replace("Z", "+00:00")`. -/
def replaceZ (s : Str) : Str :=
  s.flatMap fun c => if c = 'Z' then str "+00:00" else [c]

/-- The datetime block of `upsert_book`: absent or empty (falsy) input gives
`None`; otherwise replace `Z` by `+00:00` and parse as ISO-8601, any parse
failure degrading to `None`.  The parsed instant is represented by its
normalized text. -/
def parse_book_datetime : Option Str → Option Str
  | none => none
  | some s =>
    if s = [] then none
    else
      let t := replaceZ s
      if isoDatetimeOk t then some t else none

/-- The authors/translators coercion in `upsert_book`: a list is stored
as-is, a single string becomes a one-element list, `None` stays `None`. -/
def coerceNames : Option AuthorsField → Option (List Str)
  | some (.strs xs) => some xs
  | some (.str s) => some [s]
  | none => none

/-- The two `ValueError` raise sites of `upsert_book`. -/
inductive UpsertError where
  | missingIsbn
  | invalidIsbn
  deriving DecidableEq, Repr

/-- A row of the `books` table (`app/models.py Book`).  `created_at` is set
by the server default at insert; `updated_at` by the server default at
insert and `onupdate=func.now()` at update.  Timestamps are abstract
instants modelled as naturals. -/
structure StoredBook where
  id : Nat
  title : Str
  contents : Option Str
  url : Option Str
  isbn : Str
  datetime : Option Str
  authors : Option (List Str)
  publisher : Option Str
  translators : Option (List Str)
  price : Option Int
  sale_price : Option Int
  thumbnail : Option Str
  status : Option Str
  raw_json : RawRecord
  created_at : Nat
  updated_at : Nat
  deriving DecidableEq, Repr

/-- The database state: the `books` rows in insertion order, plus the id
sequence. -/
structure Store where
  books : List StoredBook
  next_id : Nat
  deriving DecidableEq, Repr

/-- Replace the (unique) row matching `isbn` with `b'`. -/
def updateFirstByIsbn : List StoredBook → Str → StoredBook → List StoredBook
  | [], _, _ => []
  | b :: bs, isbn, b' =>
    if b.isbn == isbn then b' :: bs else b :: updateFirstByIsbn bs isbn b'

/-- The update branch of `upsert_book`: overwrite the mutable fields of the
found row with the incoming record's values (`title` falling back to the
stored title when the incoming record has none, per
`book_data.get("title", existing_book.title)`), keep `id`, `isbn` and
`created_at`, refresh `updated_at` (the `onupdate=func.now()` column
default). -/
def updatedBook (existing_book : StoredBook) (book_data : RawRecord)
    (now : Nat) : StoredBook :=
  { existing_book with
    title := book_data.title.getD existing_book.title
    contents := book_data.contents
    url := book_data.url
    datetime := parse_book_datetime book_data.datetime
    authors := coerceNames book_data.authors
    publisher := book_data.publisher
    translators := coerceNames book_data.translators
    price := book_data.price
    sale_price := book_data.sale_price
    thumbnail := book_data.thumbnail
    status := book_data.status
    raw_json := book_data
    updated_at := now }

/-- The insert branch of `upsert_book`: a fresh row with all fields from
the incoming record and `created_at = updated_at = now` (the server
defaults). -/
def newBook (book_data : RawRecord) (isbn : Str) (id now : Nat) :
    StoredBook :=
  { id := id
    title := book_data.title.getD []
    contents := book_data.contents
    url := book_data.url
    isbn := isbn
    datetime := parse_book_datetime book_data.datetime
    authors := coerceNames book_data.authors
    publisher := book_data.publisher
    translators := coerceNames book_data.translators
    price := book_data.price
    sale_price := book_data.sale_price
    thumbnail := book_data.thumbnail
    status := book_data.status
    raw_json := book_data
    created_at := now
    updated_at := now }

/-- `app/crud.py upsert_book`.  A raised `ValueError` is modelled as
`Except.error`; both raises occur before any store access, so an error
leaves the caller's store untouched by construction.  `now` is the database
clock used by the `func.now()` defaults.  The unreachable
`isbn_raw.split()[0]` index error (the stripped string is nonempty, so
`split()` is nonempty) is folded into the `invalidIsbn` raise that follows
it in the source. -/
def upsert_book (db : Store) (now : Nat) (book_data : RawRecord) :
    Except UpsertError (Store × StoredBook) :=
  let isbn_raw := pyStrip (book_data.isbn.getD [])
  if isbn_raw = [] then .error .missingIsbn
  else
    match (tokensBy isSpace isbn_raw).head? with
    | none => .error .invalidIsbn
    | some isbn =>
      match db.books.find? (fun b => b.isbn == isbn) with
      | some existing_book =>
        .ok ({ db with
                books := updateFirstByIsbn db.books isbn
                  (updatedBook existing_book book_data now) },
          updatedBook existing_book book_data now)
      | none =>
        .ok ({ books := db.books ++ [newBook book_data isbn db.next_id now],
               next_id := db.next_id + 1 },
          newBook book_data isbn db.next_id now)

/-- The per-record loop of `app/main.py import_books`: upsert each record,
catching `ValueError` locally (`continue`) and counting successes. -/
def importGo (now : Nat) : Store → List RawRecord → Nat → Store × Nat
  | db, [], saved_count => (db, saved_count)
  | db, book_data :: rest, saved_count =>
    match upsert_book db now book_data with
    | .ok (db', _) => importGo now db' rest (saved_count + 1)
    | .error _ => importGo now db rest saved_count

/-- `app/main.py import_books` applied to an already-fetched batch: returns
the final store and the reported `count` of records saved. -/
def import_books (now : Nat) (db : Store) (books_data : List RawRecord) :
    Store × Nat :=
  importGo now db books_data 0

/-! ## Paginated fetcher: `kakao_books.fetch_page` / `fetch_all`

The network is an oracle mapping the index of each HTTP request for a page
to its outcome.  Sleeps and request counts are recorded in a trace so that
the retry/backoff behaviour is observable. -/

/-- A parsed successful response body: the `documents` list and the
`meta.is_end` flag (absent keys already folded into their defaults `[]`
and `False`, as `data.get` does). -/
structure PageBody where
  documents : List RawRecord
  is_end : Bool
  deriving DecidableEq, Repr

/-- Outcome of one HTTP request: a response with a status code and body, or
a network-level failure (`requests.exceptions.ConnectionError`/`Timeout`,
raised by `session.get` itself). -/
inductive HttpResult where
  | resp (status : Nat) (body : PageBody)
  | netErr
  deriving DecidableEq, Repr

/-- The `RuntimeError` raised by `fetch_page` when the retry budget is
exceeded, carrying the page number and the last cause. -/
inductive FetchErr where
  | runtimeError (page : Nat) (cause : HttpResult)
  deriving DecidableEq, Repr

/-- Observable effects of a fetch: number of HTTP requests issued and the
backoff sleeps performed, in order. -/
structure FetchTrace where
  requests : Nat
  waits : List ℚ
  deriving DecidableEq, Repr

/-- Status codes the source marks transient: `429 or 500 <= status < 600`. -/
def transientStatus (s : Nat) : Bool :=
  s == 429 || (500 ≤ s && s < 600)

/-- Status codes for which `Response.raise_for_status` raises `HTTPError`:
`400 <= status < 600`. -/
def raisesForStatus (s : Nat) : Bool :=
  400 ≤ s && s < 600

/-- The `while True` loop of `fetch_page`.  `k` is the number of requests
already made (index into the oracle), `a` the current value of the Python
`attempt` counter, and `left = retries - a` the remaining retry budget
(so the source's post-increment test `attempt > retries` is `left = 0`).
A transient status exhausting the budget calls `raise_for_status`; the
resulting `HTTPError` — like every `HTTPError` and network error — is
caught by the loop's `except RequestException` clause, which retries while
budget remains and otherwise raises `RuntimeError(page, cause)`. -/
def fetchPageGo (oracle : Nat → HttpResult) (page retries : Nat) (base : ℚ)
    (k a : Nat) (waits : List ℚ) :
    Nat → Except FetchErr PageBody × FetchTrace
  | 0 =>
    match oracle k with
    | .resp s body =>
      if transientStatus s then
        (.error (.runtimeError page (.resp s body)), ⟨k + 1, waits⟩)
      else if raisesForStatus s then
        (.error (.runtimeError page (.resp s body)), ⟨k + 1, waits⟩)
      else (.ok body, ⟨k + 1, waits⟩)
    | .netErr => (.error (.runtimeError page .netErr), ⟨k + 1, waits⟩)
  | left + 1 =>
    match oracle k with
    | .resp s body =>
      if transientStatus s then
        fetchPageGo oracle page retries base (k + 1) (a + 1)
          (waits ++ [base * 2 ^ a]) left
      else if raisesForStatus s then
        fetchPageGo oracle page retries base (k + 1) (a + 1)
          (waits ++ [base * 2 ^ a]) left
      else (.ok body, ⟨k + 1, waits⟩)
    | .netErr =>
      fetchPageGo oracle page retries base (k + 1) (a + 1)
        (waits ++ [base * 2 ^ a]) left

/-- `kakao_books.fetch_page` with its default `retries=3`,
`backoff_base=0.5`, instrumented with the request/sleep trace.  The wait
before retry number `attempt` is `backoff_base * 2 ** (attempt - 1)`. -/
def fetch_page (oracle : Nat → HttpResult) (page : Nat) (retries : Nat)
    (backoff_base : ℚ) : Except FetchErr PageBody × FetchTrace :=
  fetchPageGo oracle page retries backoff_base 0 0 [] retries

/-- The page loop of `fetch_all`: `page` counts up from 1,
`pagesLeft = max_pages + 1 - page`.  Documents accumulate across pages; the
loop breaks on `meta.is_end` and otherwise runs to `max_pages` (silent
truncation).  A `RuntimeError` from `fetch_page` propagates, discarding the
documents collected so far.  The trace accumulates HTTP requests over all
pages. -/
def fetchAllGo (oracle : Nat → Nat → HttpResult) (retries : Nat) (base : ℚ) :
    Nat → Nat → List RawRecord → Nat → Except FetchErr (List RawRecord) × Nat
  | _, 0, documents, reqs => (.ok documents, reqs)
  | page, pagesLeft + 1, documents, reqs =>
    match fetch_page (oracle page) page retries base with
    | (.error e, tr) => (.error e, reqs + tr.requests)
    | (.ok body, tr) =>
      let documents := documents ++ body.documents
      if body.is_end then (.ok documents, reqs + tr.requests)
      else fetchAllGo oracle retries base (page + 1) pagesLeft documents
        (reqs + tr.requests)

/-- `kakao_books.fetch_all` over a per-page oracle, returning the collected
documents (or the propagated fetch error) together with the total number of
HTTP requests issued. -/
def fetch_all (oracle : Nat → Nat → HttpResult) (max_pages retries : Nat)
    (base : ℚ) : Except FetchErr (List RawRecord) × Nat :=
  fetchAllGo oracle retries base 1 max_pages [] 0

/-- The isbn tokenization performed by `upsert_book` on the raw isbn
string: strip; an empty result means no token (ValueError); otherwise the
first part of the whitespace-only split `isbn_raw.split()[0]`. -/
def upsertIsbnToken (s : Str) : Option Str :=
  if pyStrip s = [] then none
  else (tokensBy isSpace (pyStrip s)).head?

/-- Outcomes the source retries inside the `try` block via the transient
branch or the `except RequestException` clause for network failures. -/
def isTransient : HttpResult → Bool
  | .resp s _ => transientStatus s
  | .netErr => true

/-- Documents of consecutive pages `page, page+1, ..., page+pl-1`. -/
def pagesDocs (docs : Nat → List RawRecord) : Nat → Nat → List RawRecord
  | _, 0 => []
  | page, pl + 1 => docs page ++ pagesDocs docs (page + 1) pl

theorem fetchPageGo_transient_step (o : Nat → HttpResult)
    (page retries : Nat) (base : ℚ) (k a left : Nat) (waits : List ℚ)
    (h : isTransient (o k) = true) :
    fetchPageGo o page retries base k a waits (left + 1) =
      fetchPageGo o page retries base (k + 1) (a + 1)
        (waits ++ [base * 2 ^ a]) left := by
  cases ho : o k with
  | resp s body =>
    have ht : transientStatus s = true := by simpa [isTransient, ho] using h
    simp [fetchPageGo, ho, ht]
  | netErr => simp [fetchPageGo, ho]

theorem fetchPageGo_transient_zero (o : Nat → HttpResult)
    (page retries : Nat) (base : ℚ) (k a : Nat) (waits : List ℚ)
    (h : isTransient (o k) = true) :
    fetchPageGo o page retries base k a waits 0 =
      (.error (.runtimeError page (o k)), ⟨k + 1, waits⟩) := by
  cases ho : o k with
  | resp s body =>
    have ht : transientStatus s = true := by simpa [isTransient, ho] using h
    simp [fetchPageGo, ho, ht]
  | netErr => simp [fetchPageGo, ho]

theorem fetch_page_success (o : Nat → HttpResult) (page retries : Nat)
    (base : ℚ) (s : Nat) (body : PageBody) (ho : o 0 = .resp s body)
    (hs : transientStatus s = false) (hr : raisesForStatus s = false) :
    fetch_page o page retries base = (.ok body, ⟨1, []⟩) := by
  cases retries <;> simp [fetch_page, fetchPageGo, ho, hs, hr]

theorem fetchAllGo_no_end (o : Nat → Nat → HttpResult) (retries : Nat)
    (base : ℚ) (docs : Nat → List RawRecord)
    (hsucc : ∀ p, o p 0 = .resp 200 ⟨docs p, false⟩) :
    ∀ (pl page : Nat) (acc : List RawRecord) (reqs : Nat),
      fetchAllGo o retries base page pl acc reqs =
        (.ok (acc ++ pagesDocs docs page pl), reqs + pl) := by
  intro pl
  induction pl with
  | zero => intro page acc reqs; simp [fetchAllGo, pagesDocs]
  | succ pl ih =>
    intro page acc reqs
    rw [fetchAllGo,
      fetch_page_success (o page) page retries base 200 ⟨docs page, false⟩
        (hsucc page) rfl rfl]
    show fetchAllGo o retries base (page + 1) pl (acc ++ docs page)
        (reqs + 1) = _
    rw [ih (page + 1) (acc ++ docs page) (reqs + 1), pagesDocs]
    congr 1
    · rw [List.append_assoc]
    · omega

/-- Specification-side normalization (spec.md §3, stated verbatim): the
first token obtained by splitting the raw isbn field on whitespace and the
delimiters and discarding empty tokens; `none` when no token remains.  To
be compared against the source's `_normalize_isbn`. -/
def specIsbnFirstToken (s : Str) : Option Str :=
  (tokensBy isDelim s).head?

/-! ## Lemmas about the tokenizers -/

theorem rdropWhile_append_rtakeWhile (p : Char → Bool) (l : Str) :
    l.rdropWhile p ++ l.rtakeWhile p = l := by
  rw [List.rdropWhile, List.rtakeWhile, ← List.reverse_append,
    List.takeWhile_append_dropWhile, List.reverse_reverse]

theorem tokAux_all_pos (p : Char → Bool) (s : Str) :
    ∀ cur : Str, (∀ c ∈ s, p c = true) →
      tokAux p cur s = if cur = [] then [] else [cur.reverse] := by
  induction s with
  | nil => intro cur _; rfl
  | cons c cs ih =>
    intro cur h
    have hc : p c = true := h c (List.mem_cons_self _ _)
    have hrest : tokAux p [] cs = [] := by
      simpa using ih [] fun d hd => h d (List.mem_cons_of_mem _ hd)
    by_cases hcur : cur = [] <;> simp [tokAux, hc, hcur, hrest]

theorem tokAux_append_pos (p : Char → Bool) (t : Str)
    (ht : ∀ c ∈ t, p c = true) (s : Str) :
    ∀ cur : Str, tokAux p cur (s ++ t) = tokAux p cur s := by
  induction s with
  | nil =>
    intro cur
    rw [List.nil_append, tokAux_all_pos p t cur ht]
    by_cases hcur : cur = [] <;> simp [tokAux, hcur]
  | cons c cs ih =>
    intro cur
    by_cases hc : p c = true
    · by_cases hcur : cur = [] <;> simp [tokAux, hc, hcur, ih]
    · simp [tokAux, hc, ih]

theorem tokAux_dropWhile (p q : Char → Bool)
    (hpq : ∀ c, q c = true → p c = true) (s : Str) :
    tokAux p [] (s.dropWhile q) = tokAux p [] s := by
  induction s with
  | nil => rfl
  | cons c cs ih =>
    by_cases hq : q c = true
    · simp [List.dropWhile_cons, hq, tokAux, hpq c hq, ih]
    · simp [List.dropWhile_cons, hq]

/-- Stripping whitespace does not change the token split, for any splitting
class containing whitespace. -/
theorem tokensBy_pyStrip (p : Char → Bool)
    (hp : ∀ c, isSpace c = true → p c = true) (s : Str) :
    tokensBy p (pyStrip s) = tokensBy p s := by
  unfold tokensBy pyStrip
  have h1 : tokAux p [] ((s.dropWhile isSpace).rdropWhile isSpace) =
      tokAux p []
        ((s.dropWhile isSpace).rdropWhile isSpace ++
          (s.dropWhile isSpace).rtakeWhile isSpace) :=
    (tokAux_append_pos p _
      (fun c hc => hp c (List.mem_rtakeWhile_imp hc)) _ []).symm
  rw [h1, rdropWhile_append_rtakeWhile, tokAux_dropWhile p isSpace hp]

theorem tokAux_ne_nil (p : Char → Bool) (s : Str) :
    ∀ cur : Str, cur ≠ [] → tokAux p cur s ≠ [] := by
  induction s with
  | nil => intro cur h; simp [tokAux, h]
  | cons c cs ih =>
    intro cur h
    by_cases hc : p c = true
    · simp [tokAux, hc, h]
    · simp only [tokAux, hc, Bool.false_eq_true, if_false]
      exact ih (c :: cur) (List.cons_ne_nil _ _)

/-- The token split is empty exactly when every character is a splitting
character. -/
theorem tokensBy_eq_nil (p : Char → Bool) (s : Str) :
    tokensBy p s = [] ↔ ∀ c ∈ s, p c = true := by
  constructor
  · induction s with
    | nil => intro _ d hd; cases hd
    | cons c cs ih =>
      intro h d hd
      by_cases hc : p c = true
      · have h' : tokensBy p cs = [] := by
          simpa [tokensBy, tokAux, hc] using h
        rcases List.mem_cons.mp hd with rfl | hd
        · exact hc
        · exact ih h' d hd
      · exact absurd h
          (by simpa [tokensBy, tokAux, hc] using
            tokAux_ne_nil p cs [c] (List.cons_ne_nil _ _))
  · intro h
    simpa [tokensBy] using tokAux_all_pos p s [] h

/-- Two splitting classes that agree on the characters of `s` produce the
same split. -/
theorem tokAux_congr (p q : Char → Bool) (s : Str) :
    ∀ cur : Str, (∀ c ∈ s, p c = q c) → tokAux p cur s = tokAux q cur s := by
  induction s with
  | nil => intro cur _; rfl
  | cons c cs ih =>
    intro cur h
    have hc : p c = q c := h c (List.mem_cons_self _ _)
    have hrest := fun cur =>
      ih cur fun d hd => h d (List.mem_cons_of_mem _ hd)
    by_cases hq : q c = true
    · by_cases hcur : cur = [] <;>
        simp [tokAux, hq, hc.trans hq, hcur, hrest]
    · have hp : ¬ p c = true := by rw [hc]; exact hq
      simp [tokAux, hq, hp, hrest]

/-- `pyStrip` only removes characters. -/
theorem pyStrip_sublist (s : Str) : (pyStrip s).Sublist s := by
  unfold pyStrip List.rdropWhile
  have h1 : ((s.dropWhile isSpace).reverse.dropWhile isSpace).Sublist
      (s.dropWhile isSpace).reverse := List.dropWhile_sublist _
  have h2 := h1.reverse
  rw [List.reverse_reverse] at h2
  exact h2.trans (List.dropWhile_sublist _)

theorem fetchAllGo_step_ok (o : Nat → Nat → HttpResult) (retries : Nat)
    (base : ℚ) (page pl : Nat) (acc : List RawRecord) (reqs : Nat)
    (body : PageBody) (tr : FetchTrace)
    (h : fetch_page (o page) page retries base = (.ok body, tr)) :
    fetchAllGo o retries base page (pl + 1) acc reqs =
      if body.is_end then (.ok (acc ++ body.documents), reqs + tr.requests)
      else fetchAllGo o retries base (page + 1) pl (acc ++ body.documents)
        (reqs + tr.requests) := by
  rw [fetchAllGo, h]

/-! ## Lemmas about `upsert_book` and `importGo` -/

theorem upsertIsbnToken_eq_none_iff (s : Str) :
    upsertIsbnToken s = none ↔ pyStrip s = [] := by
  constructor
  · intro h
    by_contra hne
    rw [upsertIsbnToken, if_neg hne] at h
    have hnil : tokensBy isSpace (pyStrip s) = [] := by
      cases htoks : tokensBy isSpace (pyStrip s) with
      | nil => rfl
      | cons a l => rw [htoks] at h; cases h
    have hall : ∀ c ∈ pyStrip s, isSpace c = true :=
      (tokensBy_eq_nil _ _).mp hnil
    unfold pyStrip at hne hall
    exact List.rdropWhile_last_not isSpace _ hne (hall _ (List.getLast_mem _))
  · intro h
    rw [upsertIsbnToken, if_pos h]

theorem upsert_book_token_none (db : Store) (now : Nat) (r : RawRecord)
    (h : upsertIsbnToken (r.isbn.getD []) = none) :
    upsert_book db now r = .error .missingIsbn := by
  have hs : pyStrip (r.isbn.getD []) = [] :=
    (upsertIsbnToken_eq_none_iff _).mp h
  simp [upsert_book, hs]

theorem upsert_book_eq_insert (db : Store) (now : Nat) (r : RawRecord)
    (t : Str) (htok : upsertIsbnToken (r.isbn.getD []) = some t)
    (hfind : db.books.find? (fun b => b.isbn == t) = none) :
    upsert_book db now r = .ok
      ({ books := db.books ++ [newBook r t db.next_id now],
         next_id := db.next_id + 1 },
        newBook r t db.next_id now) := by
  have hs : pyStrip (r.isbn.getD []) ≠ [] := by
    intro he; rw [upsertIsbnToken, if_pos he] at htok; cases htok
  have hh : (tokensBy isSpace (pyStrip (r.isbn.getD []))).head? = some t := by
    rw [upsertIsbnToken, if_neg hs] at htok; exact htok
  simp [upsert_book, hs, hh, hfind]

theorem upsert_book_eq_update (db : Store) (now : Nat) (r : RawRecord)
    (t : Str) (b : StoredBook)
    (htok : upsertIsbnToken (r.isbn.getD []) = some t)
    (hfind : db.books.find? (fun bk => bk.isbn == t) = some b) :
    upsert_book db now r = .ok
      ({ db with books := updateFirstByIsbn db.books t (updatedBook b r now) },
        updatedBook b r now) := by
  have hs : pyStrip (r.isbn.getD []) ≠ [] := by
    intro he; rw [upsertIsbnToken, if_pos he] at htok; cases htok
  have hh : (tokensBy isSpace (pyStrip (r.isbn.getD []))).head? = some t := by
    rw [upsertIsbnToken, if_neg hs] at htok; exact htok
  simp [upsert_book, hs, hh, hfind]

theorem upsert_book_isOk (db : Store) (now : Nat) (r : RawRecord) (t : Str)
    (htok : upsertIsbnToken (r.isbn.getD []) = some t) :
    ∃ db' b', upsert_book db now r = .ok (db', b') := by
  cases hfind : db.books.find? (fun bk => bk.isbn == t) with
  | some b => exact ⟨_, _, upsert_book_eq_update db now r t b htok hfind⟩
  | none => exact ⟨_, _, upsert_book_eq_insert db now r t htok hfind⟩

/-- Whether a record carries a persistable isbn token. -/
def hasIsbnToken (r : RawRecord) : Bool :=
  (upsertIsbnToken (r.isbn.getD [])).isSome

theorem importGo_filter (now : Nat) (rs : List RawRecord) :
    ∀ (db : Store) (n : Nat),
      importGo now db rs n = importGo now db (rs.filter hasIsbnToken) n := by
  induction rs with
  | nil => intro db n; rfl
  | cons r rest ih =>
    intro db n
    cases htok : upsertIsbnToken (r.isbn.getD []) with
    | none =>
      have hb : hasIsbnToken r = false := by
        simp [hasIsbnToken, htok]
      rw [List.filter_cons_of_neg (by simp [hb]), importGo,
        upsert_book_token_none db now r htok]
      exact ih db n
    | some t =>
      have hb : hasIsbnToken r = true := by
        simp [hasIsbnToken, htok]
      obtain ⟨db', b', hok⟩ := upsert_book_isOk db now r t htok
      rw [List.filter_cons_of_pos (by simp [hb]), importGo, hok, importGo, hok]
      exact ih db' (n + 1)

theorem importGo_count (now : Nat) (rs : List RawRecord) :
    ∀ (db : Store) (n : Nat),
      (importGo now db rs n).2 = n + (rs.filter hasIsbnToken).length := by
  induction rs with
  | nil => intro db n; simp [importGo]
  | cons r rest ih =>
    intro db n
    cases htok : upsertIsbnToken (r.isbn.getD []) with
    | none =>
      have hb : hasIsbnToken r = false := by
        simp [hasIsbnToken, htok]
      rw [importGo, upsert_book_token_none db now r htok,
        List.filter_cons_of_neg (by simp [hb])]
      exact ih db n
    | some t =>
      have hb : hasIsbnToken r = true := by
        simp [hasIsbnToken, htok]
      obtain ⟨db', b', hok⟩ := upsert_book_isOk db now r t htok
      rw [importGo, hok, List.filter_cons_of_pos (by simp [hb])]
      rw [ih db' (n + 1), List.length_cons]
      omega

/-! ## Lemmas about `dedup_documents` -/

theorem dedupGo_sublist (docs : List RawRecord) :
    ∀ seen, (dedupGo docs seen).Sublist docs := by
  induction docs with
  | nil => intro seen; simp [dedupGo]
  | cons d ds ih =>
    intro seen
    by_cases h : recordKey d ∈ seen
    · rw [dedupGo, if_pos h]
      exact (ih seen).trans (List.sublist_cons_self d ds)
    · rw [dedupGo, if_neg h]
      exact (ih (recordKey d :: seen)).cons₂ d

theorem dedupGo_mem {doc : RawRecord} {docs : List RawRecord} {seen : List Str}
    (h : doc ∈ dedupGo docs seen) : doc ∈ docs :=
  (dedupGo_sublist docs seen).mem h

/-- Every record in `dedupGo docs seen` has a key outside `seen`, and the
keys of the output are pairwise distinct. -/
theorem dedupGo_keys (docs : List RawRecord) :
    ∀ seen, (∀ d ∈ dedupGo docs seen, recordKey d ∉ seen) ∧
      ((dedupGo docs seen).map recordKey).Nodup := by
  induction docs with
  | nil => intro seen; simp [dedupGo]
  | cons d ds ih =>
    intro seen
    by_cases h : recordKey d ∈ seen
    · rw [dedupGo, if_pos h]; exact ih seen
    · rw [dedupGo, if_neg h]
      obtain ⟨hout, hnd⟩ := ih (recordKey d :: seen)
      refine ⟨?_, ?_⟩
      · intro d' hd'
        rcases List.mem_cons.mp hd' with rfl | hd'
        · exact h
        · exact fun hs => hout d' hd' (List.mem_cons_of_mem _ hs)
      · rw [List.map_cons, List.nodup_cons]
        refine ⟨?_, hnd⟩
        rw [List.mem_map]
        rintro ⟨d', hd', hk⟩
        exact hout d' hd' (hk ▸ List.mem_cons_self _ _)

/-- Every input record's key is either already in `seen` or represented in
the output. -/
theorem dedupGo_covers (docs : List RawRecord) :
    ∀ seen, ∀ d ∈ docs, recordKey d ∈ seen ∨
      ∃ d' ∈ dedupGo docs seen, recordKey d' = recordKey d := by
  induction docs with
  | nil => intro seen d hd; cases hd
  | cons a ds ih =>
    intro seen d hd
    by_cases h : recordKey a ∈ seen
    · rw [dedupGo, if_pos h]
      rcases List.mem_cons.mp hd with rfl | hd
      · exact .inl h
      · exact ih seen d hd
    · rw [dedupGo, if_neg h]
      rcases List.mem_cons.mp hd with rfl | hd
      · exact .inr ⟨_, List.mem_cons_self _ _, rfl⟩
      · rcases ih (recordKey a :: seen) d hd with hs | ⟨d', hd', hk⟩
        · rcases List.mem_cons.mp hs with hs | hs
          · exact .inr ⟨a, List.mem_cons_self _ _, hs.symm⟩
          · exact .inl hs
        · exact .inr ⟨d', List.mem_cons_of_mem _ hd', hk⟩

/-- The record retained for a key is the first input record bearing it. -/
theorem dedupGo_first (docs : List RawRecord) :
    ∀ seen, ∀ d' ∈ dedupGo docs seen,
      docs.find? (fun d => recordKey d == recordKey d') = some d' := by
  induction docs with
  | nil => intro seen d' hd'; cases hd'
  | cons a ds ih =>
    intro seen d' hd'
    by_cases h : recordKey a ∈ seen
    · rw [dedupGo, if_pos h] at hd'
      have hne : recordKey a ≠ recordKey d' := by
        intro he
        exact (dedupGo_keys ds seen).1 d' hd' (he ▸ h)
      rw [List.find?_cons_of_neg _ (by simpa using hne)]
      exact ih seen d' hd'
    · rw [dedupGo, if_neg h] at hd'
      rcases List.mem_cons.mp hd' with rfl | hd'
      · rw [List.find?_cons_of_pos _ (by simp)]
      · have hne : recordKey a ≠ recordKey d' := by
          intro he
          exact (dedupGo_keys ds (recordKey a :: seen)).1 d' hd'
            (he ▸ List.mem_cons_self _ _)
        rw [List.find?_cons_of_neg _ (by simpa using hne)]
        exact ih (recordKey a :: seen) d' hd'

/-- On a batch whose keys are pairwise distinct and disjoint from `seen`,
`dedupGo` is the identity. -/
theorem dedupGo_of_nodup (docs : List RawRecord) :
    ∀ seen, ((docs.map recordKey).Nodup) →
      (∀ d ∈ docs, recordKey d ∉ seen) → dedupGo docs seen = docs := by
  induction docs with
  | nil => intro seen _ _; rfl
  | cons a ds ih =>
    intro seen hnd hdisj
    rw [List.map_cons, List.nodup_cons] at hnd
    rw [dedupGo, if_neg (hdisj a (List.mem_cons_self _ _))]
    congr 1
    refine ih (recordKey a :: seen) hnd.2 ?_
    intro d hd
    rw [List.mem_cons]
    rintro (hk | hk)
    · exact hnd.1 (hk ▸ List.mem_map_of_mem recordKey hd)
    · exact hdisj d (List.mem_cons_of_mem _ hd) hk

/-! ## Concrete scenario data -/

/-- First record of a duplicate pair (same isbn, different payload). -/
def recA : RawRecord :=
  { isbn := some (str "8996991341 9788996991342")
    title := some (str "first payload") }

/-- Second record of the duplicate pair. -/
def recB : RawRecord :=
  { isbn := some (str "8996991341 9788996991342")
    title := some (str "second payload") }

/-- A record with no isbn field at all. -/
def recNoIsbn : RawRecord := { title := some (str "no isbn here") }

/-- First upsert payload: isbn, title and publisher present. -/
def recC : RawRecord :=
  { isbn := some (str "9788996991342")
    title := some (str "original title")
    publisher := some (str "P") }

/-- Second upsert payload for the same isbn: no `title` key, a price. -/
def recD : RawRecord :=
  { isbn := some (str "9788996991342")
    price := some 1000 }

/-- Store after upserting `recC` into an empty store at time 1. -/
def c2Store1 : Store :=
  match upsert_book ⟨[], 0⟩ 1 recC with
  | .ok (db, _) => db
  | .error _ => ⟨[], 0⟩

/-- Store after then upserting `recD` at time 2. -/
def c2Store2 : Store :=
  match upsert_book c2Store1 2 recD with
  | .ok (db, _) => db
  | .error _ => ⟨[], 0⟩

/-- A 404 response with an empty body. -/
def notFound : HttpResult := .resp 404 ⟨[], false⟩

/-- An oracle whose every request gets HTTP 500. -/
def always500 : Nat → HttpResult := fun _ => .resp 500 ⟨[], false⟩

/-- A sample document for bulk pages. -/
def docA : RawRecord := { title := some (str "dup") }

/-- Page 1: 50 documents, `is_end = false`; page 2: 3 documents,
`is_end = true`. -/
def c5Oracle : Nat → Nat → HttpResult := fun p _ =>
  if p = 1 then .resp 200 ⟨List.replicate 50 docA, false⟩
  else .resp 200 ⟨List.replicate 3 docA, true⟩

/-! ## Claims C1 and C10: deduplication -/

/-- C1 counterexample: for two distinct records sharing a NormalizedKey,
`dedup_documents` retains the first one in input order, not the last as
claimed. -/
theorem dedup_keeps_first_not_last_cex :
    recordKey recA = recordKey recB ∧ recA ≠ recB ∧
    dedup_documents [recA, recB] = [recA] ∧
    dedup_documents [recA, recB] ≠ [recB] := by decide

/-- C1 (amended): `dedup_documents` outputs at most one record per distinct
NormalizedKey, the retained record for each key is the first record in
input order sharing that key, and the relative order of first-occurrence
keys is preserved (the output is a subsequence of the input covering every
input key). -/
theorem dedup_documents_first_per_key (docs : List RawRecord) :
    ((dedup_documents docs).map recordKey).Nodup ∧
    (dedup_documents docs).Sublist docs ∧
    (∀ d ∈ docs, ∃ d' ∈ dedup_documents docs, recordKey d' = recordKey d) ∧
    (∀ d' ∈ dedup_documents docs,
      docs.find? (fun d => recordKey d == recordKey d') = some d') := by
  refine ⟨(dedupGo_keys docs []).2, dedupGo_sublist docs [], ?_,
    dedupGo_first docs []⟩
  intro d hd
  rcases dedupGo_covers docs [] d hd with hs | h
  · cases hs
  · exact h

/-- Witness for C1's amended theorem at a concrete duplicate pair. -/
theorem dedup_documents_first_per_key_witness :
    [recA, recB].find? (fun d => recordKey d == recordKey recA) = some recA :=
  (dedup_documents_first_per_key [recA, recB]).2.2.2 recA (by decide)

/-- C10: every output record of `dedup_documents` occurs in the input, the
output is no longer than the input, and `dedup_documents` is idempotent. -/
theorem dedup_documents_algebraic (docs : List RawRecord) :
    (∀ d ∈ dedup_documents docs, d ∈ docs) ∧
    (dedup_documents docs).length ≤ docs.length ∧
    dedup_documents (dedup_documents docs) = dedup_documents docs := by
  refine ⟨fun d hd => dedupGo_mem hd, (dedupGo_sublist docs []).length_le, ?_⟩
  exact dedupGo_of_nodup _ [] (dedupGo_keys docs []).2
    fun d _ hmem => List.not_mem_nil _ hmem

/-- Witness for C10 at a concrete duplicate pair. -/
theorem dedup_documents_algebraic_witness :
    dedup_documents (dedup_documents [recA, recB]) =
      dedup_documents [recA, recB] :=
  (dedup_documents_algebraic [recA, recB]).2.2

/-! ## Claim C2: upsert overwrite semantics -/

/-- C2 counterexample: the update branch is not a full replace.  A second
upsert of the same isbn whose record has no `title` key leaves the first
upsert's title in place instead of overwriting it with the empty default. -/
theorem upsert_not_full_replace_cex :
    (upsert_book ⟨[], 0⟩ 1 recC).isOk = true ∧
    (upsert_book c2Store1 2 recD).isOk = true ∧
    recD.title = none ∧
    c2Store2.books.map (fun b => b.title) = [str "original title"] ∧
    c2Store2.books.map (fun b => b.title) ≠ [[]] := by decide

/-- C2 (amended): when the same isbn token is upserted twice into an empty
store, exactly one record remains; every mutable field except `title` holds
the second record's value (absent values overwriting with null), `title`
holds the second record's value only when present and otherwise retains the
first upsert's title, and `id` and `created_at` are untouched while
`updated_at` is refreshed. -/
theorem upsert_twice_semantics (r1 r2 : RawRecord) (t : Str)
    (now1 now2 : Nat)
    (h1 : upsertIsbnToken (r1.isbn.getD []) = some t)
    (h2 : upsertIsbnToken (r2.isbn.getD []) = some t) :
    ∃ db1 b1 db2 b2,
      upsert_book ⟨[], 0⟩ now1 r1 = .ok (db1, b1) ∧
      upsert_book db1 now2 r2 = .ok (db2, b2) ∧
      db2.books = [b2] ∧
      b2.id = b1.id ∧ b2.created_at = b1.created_at ∧
      b1.created_at = now1 ∧ b2.updated_at = now2 ∧
      b2.title = r2.title.getD b1.title ∧
      b2.contents = r2.contents ∧ b2.url = r2.url ∧
      b2.datetime = parse_book_datetime r2.datetime ∧
      b2.authors = coerceNames r2.authors ∧
      b2.publisher = r2.publisher ∧
      b2.translators = coerceNames r2.translators ∧
      b2.price = r2.price ∧ b2.sale_price = r2.sale_price ∧
      b2.thumbnail = r2.thumbnail ∧ b2.status = r2.status ∧
      b2.raw_json = r2 := by
  have hins : upsert_book ⟨[], 0⟩ now1 r1 =
      .ok (⟨[newBook r1 t 0 now1], 1⟩, newBook r1 t 0 now1) :=
    upsert_book_eq_insert ⟨[], 0⟩ now1 r1 t h1 rfl
  have hfind : (([newBook r1 t 0 now1] : List StoredBook).find?
      fun bk => bk.isbn == t) = some (newBook r1 t 0 now1) := by
    simp [List.find?, newBook]
  have hupd : upsert_book ⟨[newBook r1 t 0 now1], 1⟩ now2 r2 =
      .ok (⟨[updatedBook (newBook r1 t 0 now1) r2 now2], 1⟩,
        updatedBook (newBook r1 t 0 now1) r2 now2) := by
    have h := upsert_book_eq_update ⟨[newBook r1 t 0 now1], 1⟩ now2 r2 t
      (newBook r1 t 0 now1) h2 hfind
    simpa [updateFirstByIsbn, newBook] using h
  exact ⟨_, _, _, _, hins, hupd, rfl, rfl, rfl, rfl, rfl, rfl, rfl, rfl,
    rfl, rfl, rfl, rfl, rfl, rfl, rfl, rfl, rfl⟩

/-- Witness for C2's amended theorem: both hypotheses hold for the concrete
pair `recC`/`recD` and the first upsert succeeds. -/
theorem upsert_twice_semantics_witness :
    upsertIsbnToken (recC.isbn.getD []) = some (str "9788996991342") ∧
    upsertIsbnToken (recD.isbn.getD []) = some (str "9788996991342") ∧
    (upsert_book ⟨[], 0⟩ 1 recC).isOk = true := by
  obtain ⟨db1, b1, db2, b2, hup1, hrest⟩ :=
    upsert_twice_semantics recC recD (str "9788996991342") 1 2
      (by decide) (by decide)
  refine ⟨by decide, by decide, ?_⟩
  rw [hup1]; rfl

/-! ## Claims C3, C4, C5: the paginated fetcher -/

/-- C3: contrary to the claim (and to the source's own comment `# Retry
only for 429 and 5xx`), a non-transient 4xx is retried: the `HTTPError`
from `raise_for_status` is a `RequestException` and lands in the retry
clause, so a constant-404 page costs 4 HTTP requests and three backoff
sleeps of 0.5, 1 and 2 time-units before `RuntimeError` is raised. -/
theorem fetch_page_404_is_retried :
    fetch_page (fun _ => notFound) 1 3 (1/2) =
      (.error (.runtimeError 1 notFound),
        ⟨4, [1/2 * 2 ^ 0, 1/2 * 2 ^ 1, 1/2 * 2 ^ 2]⟩) := rfl

/-- C4: on transient outcomes the same page is retried 3 more times with
backoff waits `base * 2 ^ (attempt - 1)`; when all 1 + 3 attempts fail the
fetch raises a `RuntimeError` naming the page and last cause, and
`fetch_all` propagates it, returning no records. -/
theorem fetch_page_retry_exhaustion (o : Nat → HttpResult) (page : Nat)
    (base : ℚ) (h : ∀ k, k < 4 → isTransient (o k) = true) :
    fetch_page o page 3 base =
      (.error (.runtimeError page (o 3)),
        ⟨4, [base * 2 ^ 0, base * 2 ^ 1, base * 2 ^ 2]⟩) ∧
    ∀ mp : Nat, 1 ≤ mp →
      fetch_all (fun _ => o) mp 3 base =
        (.error (.runtimeError 1 (o 3)), 4) := by
  have hall : ∀ pg : Nat, fetch_page o pg 3 base =
      (.error (.runtimeError pg (o 3)),
        ⟨4, [base * 2 ^ 0, base * 2 ^ 1, base * 2 ^ 2]⟩) := by
    intro pg
    unfold fetch_page
    rw [fetchPageGo_transient_step o pg 3 base 0 0 2 [] (h 0 (by omega)),
      fetchPageGo_transient_step o pg 3 base 1 1 1 _ (h 1 (by omega)),
      fetchPageGo_transient_step o pg 3 base 2 2 0 _ (h 2 (by omega)),
      fetchPageGo_transient_zero o pg 3 base 3 3 _ (h 3 (by omega))]
    simp
  refine ⟨hall page, ?_⟩
  intro mp hmp
  obtain ⟨pl, rfl⟩ : ∃ pl, mp = pl + 1 := ⟨mp - 1, by omega⟩
  unfold fetch_all
  rw [fetchAllGo, hall 1]
  rfl

/-- Witness for C4: constant HTTP 500, page 7, default backoff base 0.5. -/
theorem fetch_page_retry_exhaustion_witness :
    fetch_page always500 7 3 (1/2) =
      (.error (.runtimeError 7 (always500 3)),
        ⟨4, [1/2 * 2 ^ 0, 1/2 * 2 ^ 1, 1/2 * 2 ^ 2]⟩) ∧
    fetch_all (fun _ => always500) 20 3 (1/2) =
      (.error (.runtimeError 1 (always500 3)), 4) := by
  have h := fetch_page_retry_exhaustion always500 7 (1/2) (by decide)
  exact ⟨h.1, h.2 20 (by omega)⟩

/-- C5: `fetch_all` stops as soon as a page reports `meta.is_end = true`,
even below `max_pages`, returning the concatenation of all received
documents in 2 HTTP calls for the two-page scenario; and when `max_pages`
is exhausted with `is_end` never true it stops without error. -/
theorem fetch_all_stops_on_is_end (o : Nat → Nat → HttpResult)
    (retries : Nat) (base : ℚ) (docsA docsB : List RawRecord) (mp : Nat)
    (h1 : o 1 0 = .resp 200 ⟨docsA, false⟩)
    (h2 : o 2 0 = .resp 200 ⟨docsB, true⟩)
    (hmp : 2 ≤ mp) :
    fetch_all o mp retries base = (.ok (docsA ++ docsB), 2) ∧
    ∀ (oracle : Nat → Nat → HttpResult) (docs : Nat → List RawRecord)
      (mp' : Nat), (∀ p, oracle p 0 = .resp 200 ⟨docs p, false⟩) →
      fetch_all oracle mp' retries base =
        (.ok (pagesDocs docs 1 mp'), mp') := by
  constructor
  · obtain ⟨pl, rfl⟩ : ∃ pl, mp = pl + 1 + 1 := ⟨mp - 2, by omega⟩
    unfold fetch_all
    rw [fetchAllGo_step_ok o retries base 1 (pl + 1) [] 0 ⟨docsA, false⟩
      ⟨1, []⟩ (fetch_page_success (o 1) 1 retries base 200 _ h1 rfl rfl)]
    show fetchAllGo o retries base (1 + 1) (pl + 1) ([] ++ docsA) (0 + 1) = _
    rw [fetchAllGo_step_ok o retries base (1 + 1) pl ([] ++ docsA) (0 + 1)
      ⟨docsB, true⟩ ⟨1, []⟩
      (fetch_page_success (o (1 + 1)) (1 + 1) retries base 200 _ h2 rfl rfl)]
    show ((Except.ok (([] ++ docsA) ++ docsB) :
        Except FetchErr (List RawRecord)), 0 + 1 + 1) = _
    simp
  · intro oracle docs mp' hsucc
    unfold fetch_all
    rw [fetchAllGo_no_end oracle retries base docs hsucc mp' 1 [] 0]
    simp

/-- Witness for C5: the 50-document / 3-document two-page scenario gives 53
records with exactly 2 HTTP calls. -/
theorem fetch_all_stops_on_is_end_witness :
    fetch_all c5Oracle 20 3 (1/2) =
      (.ok (List.replicate 50 docA ++ List.replicate 3 docA), 2) ∧
    (List.replicate 50 docA ++ List.replicate 3 docA).length = 53 := by
  have h := fetch_all_stops_on_is_end c5Oracle 3 (1/2)
    (List.replicate 50 docA) (List.replicate 3 docA) 20 rfl rfl (by omega)
  exact ⟨h.1, by simp⟩

/-! ## Claims C6, C7, C8, C9: normalization and persistence -/

/-- C6: `_normalize_isbn` returns exactly the first nonempty token of the
split on whitespace and the delimiters (as the spec words it, without the
strip), and returns `None` on inputs consisting only of
whitespace/delimiters (including the empty string). -/
theorem normalize_isbn_matches_spec (s : Str) :
    _normalize_isbn s = specIsbnFirstToken s ∧
    ((∀ c ∈ s, isDelim c = true) → _normalize_isbn s = none) := by
  have key : _normalize_isbn s = specIsbnFirstToken s := by
    unfold _normalize_isbn specIsbnFirstToken
    by_cases hs : s = []
    · subst hs; rfl
    · rw [if_neg hs,
        tokensBy_pyStrip isDelim (fun c hc => by simp [isDelim, hc]) s]
  refine ⟨key, fun h => ?_⟩
  rw [key]
  unfold specIsbnFirstToken
  rw [(tokensBy_eq_nil isDelim s).mpr h]
  rfl

/-- Witness for C6: a two-token isbn field and a delimiter-only field. -/
theorem normalize_isbn_matches_spec_witness :
    _normalize_isbn (str " 8936434595 9788936434595 ") =
      specIsbnFirstToken (str " 8936434595 9788936434595 ") ∧
    _normalize_isbn (str " ,;|/ ") = none ∧
    _normalize_isbn (str " 8936434595 9788936434595 ") =
      some (str "8936434595") :=
  ⟨(normalize_isbn_matches_spec _).1,
    (normalize_isbn_matches_spec _).2 (by decide), by decide⟩

/-- C7 counterexample: the two tokenizers are not equal as functions.  On
`"893643,4595"` the upsert extraction (`isbn_raw.split()[0]`, whitespace
only) keeps the comma, while `_normalize_isbn` splits at it. -/
theorem upsert_vs_dedup_tokenizer_cex :
    upsertIsbnToken (str "893643,4595") = some (str "893643,4595") ∧
    _normalize_isbn (str "893643,4595") = some (str "893643") ∧
    upsertIsbnToken (str "893643,4595") ≠
      _normalize_isbn (str "893643,4595") := by decide

/-- C7 (amended): the upsert tokenizer splits on whitespace only, so it
agrees with the §3 normalization exactly on raw isbn strings containing
none of the extra delimiters `,` `;` `|` `/`. -/
theorem upsert_tokenizer_agreement (s : Str)
    (h : ∀ c ∈ s, (c = ',' ∨ c = ';' ∨ c = '|' ∨ c = '/') → False) :
    upsertIsbnToken s = _normalize_isbn s := by
  unfold upsertIsbnToken _normalize_isbn
  by_cases hs : s = []
  · subst hs; rfl
  · rw [if_neg hs]
    by_cases hps : pyStrip s = []
    · rw [if_pos hps, hps]
      rfl
    · rw [if_neg hps]
      have hagree : ∀ c ∈ pyStrip s, isSpace c = isDelim c := by
        intro c hc
        have hmem : c ∈ s := (pyStrip_sublist s).mem hc
        have hno := h c hmem
        have h1 : ¬ c = ',' := fun he => hno (Or.inl he)
        have h2 : ¬ c = ';' := fun he => hno (Or.inr (Or.inl he))
        have h3 : ¬ c = '|' := fun he => hno (Or.inr (Or.inr (Or.inl he)))
        have h4 : ¬ c = '/' := fun he => hno (Or.inr (Or.inr (Or.inr he)))
        simp [isDelim, h1, h2, h3, h4]
      unfold tokensBy
      rw [tokAux_congr isSpace isDelim (pyStrip s) [] hagree]

/-- Witness for C7's amended theorem: a whitespace-separated isbn pair. -/
theorem upsert_tokenizer_agreement_witness :
    upsertIsbnToken (str "8936434595 9788936434595") =
      _normalize_isbn (str "8936434595 9788936434595") ∧
    upsertIsbnToken (str "8936434595 9788936434595") =
      some (str "8936434595") :=
  ⟨upsert_tokenizer_agreement _ (by decide), by decide⟩

/-- C8: upserting a record with no nonempty isbn token raises the
validation error, and no successor store is ever produced — in this pure
embedding the caller's store is untouched (in the source both raises
precede any session access). -/
theorem upsert_book_missing_isbn_rejected (db : Store) (now : Nat)
    (r : RawRecord) (h : upsertIsbnToken (r.isbn.getD []) = none) :
    upsert_book db now r = .error .missingIsbn ∧
    ∀ db' b, upsert_book db now r ≠ .ok (db', b) := by
  have he := upsert_book_token_none db now r h
  exact ⟨he, fun db' b hok => by rw [he] at hok; cases hok⟩

/-- Witness for C8: a record with the isbn key absent. -/
theorem upsert_book_missing_isbn_rejected_witness :
    upsertIsbnToken (recNoIsbn.isbn.getD []) = none ∧
    upsert_book ⟨[], 0⟩ 3 recNoIsbn = .error .missingIsbn :=
  ⟨by decide,
    (upsert_book_missing_isbn_rejected ⟨[], 0⟩ 3 recNoIsbn (by decide)).1⟩

/-- C9: batch import catches per-record validation errors locally: the
returned count equals the number of records carrying an isbn token, and the
final store (and count) are the same as if the invalid records had been
removed from the batch — they are skipped, never aborting the batch. -/
theorem import_books_skips_invalid (now : Nat) (db : Store)
    (batch : List RawRecord) :
    (import_books now db batch).2 = (batch.filter hasIsbnToken).length ∧
    import_books now db batch =
      import_books now db (batch.filter hasIsbnToken) := by
  constructor
  · simpa using importGo_count now batch db 0
  · exact importGo_filter now batch db 0

/-- Witness for C9: a batch with one invalid record in the middle saves the
other two. -/
theorem import_books_skips_invalid_witness :
    (import_books 5 ⟨[], 0⟩ [recC, recNoIsbn, recD]).2 = 2 := by
  have h := (import_books_skips_invalid 5 ⟨[], 0⟩ [recC, recNoIsbn, recD]).1
  rw [h]
  decide

end BookMatch
